import Mathlib

/-! # The zone memory allocator of `z_zone.c`

A shallow embedding of the two-pool zone allocator (`src/doomgeneric/z_zone.c`).

* Memory is a map from addresses to block headers (`memblock_t`), a map from
  addresses to pointer cells (the owner slots that `user` fields point at), and
  the two fields `size` and `rover` of each `memzone_t`, keyed by the zone's
  address.  The `blocklist` member of a `memzone_t` at address `z` is the header
  at address `z + off_blocklist`.
* Addresses and C `int`s are `Int`.  `int` results are reduced to 32 bit two's
  complement by `wrapInt` wherever the source computes them.
* `I_Error` never returns: a call that reaches it ends in `Outcome.fatal`.
* The loops of the source take a fuel argument and end in `Outcome.outOfFuel`
  when it runs out; the theorems give a bound that suffices.
* The constants of `z_zone.h` (`PU_*`) and the sizes fixed by the ABI are the
  fields of `Platform`.
-/

namespace Zone

/-! ## Platform constants -/

/-- The constants the source reads from `z_zone.h` and from the ABI. -/
structure Platform where
  /-- `MEM_ALIGN`, that is `sizeof(void *)`. -/
  MEM_ALIGN : Int
  /-- `sizeof(memblock_t)`. -/
  sizeof_memblock : Int
  /-- `sizeof(memzone_t)`. -/
  sizeof_memzone : Int
  /-- `offsetof(memzone_t, blocklist)`. -/
  off_blocklist : Int
  PU_STATIC : Int
  PU_FREE : Int
  PU_PURGELEVEL : Int
  PU_CACHE : Int

/-- `#define ZONEID 0x1d4a11`. -/
def ZONEID : Int := 0x1d4a11

/-- `#define MINFRAGMENT 64`. -/
def MINFRAGMENT : Int := 64

/-- The value an `int` holds after a computation whose exact result is `x`
(32 bit two's complement). -/
def wrapInt (x : Int) : Int := (x + 2147483648) % 4294967296 - 2147483648

/-- The facts about the platform that the allocator relies on: the alignment is
the size of a 32 or 64 bit pointer, a header is not larger than the smallest
fragment that is split off, the sentinel lies inside the zone header, and the
sentinel's tag `PU_STATIC` is neither free nor purgeable. -/
def Platform.Valid (c : Platform) : Prop :=
  (c.MEM_ALIGN = 4 ∨ c.MEM_ALIGN = 8) ∧
  0 < c.sizeof_memblock ∧ c.sizeof_memblock ≤ MINFRAGMENT ∧
  0 ≤ c.off_blocklist ∧ c.off_blocklist + c.sizeof_memblock ≤ c.sizeof_memzone ∧
  c.PU_STATIC ≠ c.PU_FREE ∧ c.PU_STATIC < c.PU_PURGELEVEL ∧
  c.PU_FREE < c.PU_PURGELEVEL ∧ c.PU_PURGELEVEL ≤ c.PU_CACHE

/-- The 32 bit ARM target: 4 byte pointers and `int`s, and the tag values of
`z_zone.h` (`PU_STATIC = 1`, `PU_FREE = 4`, `PU_PURGELEVEL = 7`, `PU_CACHE = 8`). -/
def ilp32 : Platform where
  MEM_ALIGN := 4
  sizeof_memblock := 24
  sizeof_memzone := 32
  off_blocklist := 4
  PU_STATIC := 1
  PU_FREE := 4
  PU_PURGELEVEL := 7
  PU_CACHE := 8

/-! ## Data model -/

/-- The header `memblock_t`. -/
structure memblock_t where
  size : Int
  user : Int
  tag : Int
  id : Int
  next : Int
  prev : Int
deriving DecidableEq

/-- The whole memory the allocator reads and writes. -/
structure State where
  /-- The pointer `mainzone`. -/
  mainzone : Int
  /-- The pointer `secondaryzone`. -/
  secondaryzone : Int
  /-- `zone->size`, by the zone's address. -/
  zsize : Int → Int
  /-- `zone->rover`, by the zone's address. -/
  zrover : Int → Int
  /-- The block header stored at an address. -/
  hdr : Int → memblock_t
  /-- The pointer cell stored at an address (owner slots). -/
  slot : Int → Int

/-- The fatal errors, one per `I_Error` call of the source. -/
inductive Fatal where
  | free_no_zoneid
  | free_not_in_zone
  | malloc_no_owner
  | malloc_failed
  | checkheap_touch
  | checkheap_backlink
  | checkheap_two_free
  | changetag_no_zoneid
  | changetag_no_owner
  | changeuser_invalid
deriving DecidableEq

/-- How a call ends: it returns, it ends in `I_Error`, or the fuel of a loop ran out. -/
inductive Outcome (α : Type) where
  | ok (a : α)
  | fatal (e : Fatal)
  | outOfFuel

/-- Write a header: `f` maps the old header at `a` to the new one. -/
def State.setHdr (s : State) (a : Int) (f : memblock_t → memblock_t) : State :=
  { s with hdr := fun x => if x = a then f (s.hdr a) else s.hdr x }

/-- Write `zone->rover`. -/
def State.setRover (s : State) (zone r : Int) : State :=
  { s with zrover := fun x => if x = zone then r else s.zrover x }

/-- Write `zone->size`. -/
def State.setZsize (s : State) (zone n : Int) : State :=
  { s with zsize := fun x => if x = zone then n else s.zsize x }

/-- Write a pointer cell. -/
def State.setSlot (s : State) (a v : Int) : State :=
  { s with slot := fun x => if x = a then v else s.slot x }

/-- The address of `zone->blocklist`. -/
def blocklist (c : Platform) (zone : Int) : Int := zone + c.off_blocklist

/-! ## Z_ClearZone, Z_Init -/

/-- `Z_ClearZone`. -/
def Z_ClearZone (c : Platform) (s : State) (zone : Int) : State :=
  let block := zone + c.sizeof_memzone
  let s := s.setHdr (blocklist c zone) (fun b => { b with next := block, prev := block })
  let s := s.setHdr (blocklist c zone) (fun b => { b with user := zone, tag := c.PU_STATIC })
  let s := s.setRover zone block
  let s := s.setHdr block (fun b => { b with prev := blocklist c zone, next := blocklist c zone })
  let s := s.setHdr block (fun b => { b with tag := c.PU_FREE })
  s.setHdr block (fun b => { b with size := wrapInt (s.zsize zone - c.sizeof_memzone) })

/-- `Z_Init`; the platform calls `I_ZoneBase` and `I_GetSecondaryZone` are their
results `(mainBase, mainSize)` and `(secBase, secSize)`, and `s` is the memory
as it is found. -/
def Z_Init (c : Platform) (s : State) (mainBase mainSize secBase secSize : Int) : State :=
  let s := { s with mainzone := mainBase }
  let s := s.setZsize s.mainzone mainSize
  let s := Z_ClearZone c s s.mainzone
  let s := { s with secondaryzone := secBase }
  let s := s.setZsize s.secondaryzone secSize
  Z_ClearZone c s s.secondaryzone

/-! ## Z_Free -/

/-- `Z_Free`, lines 151-160: clear the user's mark, mark as free. -/
def markFree (c : Platform) (s : State) (block : Int) : State :=
  let s := if (s.hdr block).tag ≠ c.PU_FREE ∧ (s.hdr block).user ≠ 0
    then s.setSlot (s.hdr block).user 0 else s
  s.setHdr block (fun b => { b with tag := c.PU_FREE, user := 0, id := 0 })

/-- `Z_Free`, lines 162-175: merge with the previous free block.  The result is
the state and the new value of the local `block`. -/
def mergePrev (c : Platform) (s : State) (zone block : Int) : State × Int :=
  let other := (s.hdr block).prev
  if (s.hdr other).tag = c.PU_FREE then
    let s := s.setHdr other (fun o => { o with size := wrapInt (o.size + (s.hdr block).size) })
    let s := s.setHdr other (fun o => { o with next := (s.hdr block).next })
    let s := s.setHdr (s.hdr other).next (fun n => { n with prev := other })
    let s := if block = s.zrover zone then s.setRover zone other else s
    (s, other)
  else (s, block)

/-- `Z_Free`, lines 177-187: merge the next free block onto the end. -/
def mergeNext (c : Platform) (s : State) (zone block : Int) : State :=
  let other := (s.hdr block).next
  if (s.hdr other).tag = c.PU_FREE then
    let s := s.setHdr block (fun b => { b with size := wrapInt (b.size + (s.hdr other).size) })
    let s := s.setHdr block (fun b => { b with next := (s.hdr other).next })
    let s := s.setHdr (s.hdr block).next (fun n => { n with prev := block })
    if other = s.zrover zone then s.setRover zone block else s
  else s

/-- `Z_Free`, lines 151-187, for the header `block` found to lie in `zone`. -/
def freeBlock (c : Platform) (s : State) (zone block : Int) : State :=
  let sb := mergePrev c (markFree c s block) zone block
  mergeNext c sb.1 zone sb.2

/-- `Z_Free`. -/
def Z_Free (c : Platform) (s : State) (ptr : Int) : Outcome State :=
  let block := ptr - c.sizeof_memblock
  if (s.hdr block).id ≠ ZONEID then .fatal .free_no_zoneid
  else if s.mainzone ≤ block ∧ block < s.mainzone + s.zsize s.mainzone then
    .ok (freeBlock c s s.mainzone block)
  else if s.secondaryzone ≤ block ∧ block < s.secondaryzone + s.zsize s.secondaryzone then
    .ok (freeBlock c s s.secondaryzone block)
  else .fatal .free_not_in_zone

/-! ## Z_Malloc_Zone, Z_Malloc -/

/-- The body of the `do ... while` loop of `Z_Malloc_Zone` below its
`rover == start` test (lines 228-245): the state and the new `base` and `rover`. -/
def scanStep (c : Platform) (s : State) (base rover : Int) : Outcome (State × Int × Int) :=
  if (s.hdr rover).tag ≠ c.PU_FREE then
    if (s.hdr rover).tag < c.PU_PURGELEVEL then
      .ok (s, (s.hdr rover).next, (s.hdr rover).next)
    else
      let base1 := (s.hdr base).prev
      match Z_Free c s (rover + c.sizeof_memblock) with
      | .ok s1 =>
        let base2 := (s1.hdr base1).next
        .ok (s1, base2, (s1.hdr base2).next)
      | .fatal e => .fatal e
      | .outOfFuel => .outOfFuel
  else .ok (s, base, (s.hdr rover).next)

/-- The `do ... while` loop of `Z_Malloc_Zone` (lines 220-247).  The result is
the state and `none` where the source returns `NULL` (the scan is back at
`start`), or `some base` where the loop is left with a block that fits. -/
def scan (c : Platform) (size start : Int) :
    Nat → State → Int → Int → Outcome (State × Option Int)
  | 0, _, _, _ => .outOfFuel
  | fuel + 1, s, base, rover =>
    if rover = start then .ok (s, none)
    else
      match scanStep c s base rover with
      | .ok (s1, base1, rover1) =>
        if (s1.hdr base1).tag ≠ c.PU_FREE ∨ (s1.hdr base1).size < size then
          scan c size start fuel s1 base1 rover1
        else .ok (s1, some base1)
      | .fatal e => .fatal e
      | .outOfFuel => .outOfFuel

/-- `Z_Malloc_Zone`, lines 250-265: split off the part of `base` that is not needed. -/
def splitBlock (c : Platform) (s : State) (base size : Int) : State :=
  let extra := wrapInt ((s.hdr base).size - size)
  if extra > MINFRAGMENT then
    let newblock := base + size
    let s := s.setHdr newblock (fun b => { b with size := extra })
    let s := s.setHdr newblock (fun b =>
      { b with tag := c.PU_FREE, user := 0, prev := base, next := (s.hdr base).next })
    let s := s.setHdr (s.hdr newblock).next (fun n => { n with prev := newblock })
    let s := s.setHdr base (fun b => { b with next := newblock })
    s.setHdr base (fun b => { b with size := size })
  else s

/-- `Z_Malloc_Zone`, lines 267-285: record the owner, tag and marker, move the
rover, return the address behind the header. -/
def installBlock (c : Platform) (s : State) (zone base tag user : Int) :
    Outcome (State × Int) :=
  if user ≠ 0 then
    let s := s.setHdr base (fun b => { b with user := user })
    let s := s.setSlot user (base + c.sizeof_memblock)
    let s := s.setHdr base (fun b => { b with tag := tag, id := ZONEID })
    let s := s.setRover zone (s.hdr base).next
    .ok (s, base + c.sizeof_memblock)
  else if tag ≥ c.PU_PURGELEVEL then .fatal .malloc_no_owner
  else
    let s := s.setHdr base (fun b => { b with user := 0 })
    let s := s.setHdr base (fun b => { b with tag := tag, id := ZONEID })
    let s := s.setRover zone (s.hdr base).next
    .ok (s, base + c.sizeof_memblock)

/-- `Z_Malloc_Zone`; `size` is the size with the header, the result pointer `0` is `NULL`. -/
def Z_Malloc_Zone (c : Platform) (fuel : Nat) (s : State) (zone size tag user : Int) :
    Outcome (State × Int) :=
  let base := s.zrover zone
  let base := if (s.hdr (s.hdr base).prev).tag = c.PU_FREE then (s.hdr base).prev else base
  let start := (s.hdr base).prev
  match scan c size start fuel s base base with
  | .ok (s1, none) => .ok (s1, 0)
  | .ok (s1, some base1) => installBlock c (splitBlock c s1 base1 size) zone base1 tag user
  | .fatal e => .fatal e
  | .outOfFuel => .outOfFuel

/-- The value of `(size + MEM_ALIGN - 1) & ~(MEM_ALIGN - 1)` stored back into the
`int size`.  The operands are converted to `size_t`; the low 32 bits of the
result, which are all the `int` keeps, are the same for a 32 and a 64 bit `size_t`. -/
def alignSize (c : Platform) (size : Int) : Int :=
  wrapInt (Int.ofNat (Nat.land ((size + c.MEM_ALIGN - 1) % 4294967296).toNat
    ((4294967295 - (c.MEM_ALIGN - 1)) % 4294967296).toNat))

/-- The size `Z_Malloc` passes on: aligned, plus the header (lines 297-298). -/
def requestSize (c : Platform) (size : Int) : Int :=
  wrapInt (alignSize c size + c.sizeof_memblock)

/-- `Z_Malloc`. -/
def Z_Malloc (c : Platform) (fuel : Nat) (s : State) (size tag user : Int) :
    Outcome (State × Int) :=
  match Z_Malloc_Zone c fuel s s.mainzone (requestSize c size) tag user with
  | .ok (s1, result) =>
    if result = 0 then
      match Z_Malloc_Zone c fuel s1 s1.secondaryzone (requestSize c size) tag user with
      | .ok (s2, result2) =>
        if result2 = 0 then
          if tag ≥ c.PU_CACHE then .ok (s2, 0) else .fatal .malloc_failed
        else .ok (s2, result2)
      | .fatal e => .fatal e
      | .outOfFuel => .outOfFuel
    else .ok (s1, result)
  | .fatal e => .fatal e
  | .outOfFuel => .outOfFuel

/-! ## Z_FreeTags -/

/-- A line that `Z_DumpHeap_Zone` prints for a block. -/
inductive DumpLine where
  | block (addr size user tag : Int)
  | err_touch
  | err_backlink
  | err_two_free
deriving DecidableEq

/-- The `for` loop of `Z_DumpHeap_Zone`, at `block`: the lines printed. -/
def dumpLoop (c : Platform) (s : State) (zone lowtag hightag : Int) :
    Nat → Int → Outcome (List DumpLine)
  | 0, _ => .outOfFuel
  | fuel + 1, block =>
    let b := s.hdr block
    let l1 := if b.tag ≥ lowtag ∧ b.tag ≤ hightag
      then [DumpLine.block block b.size b.user b.tag] else []
    if b.next = blocklist c zone then .ok l1
    else
      let l2 := if block + b.size ≠ b.next then [DumpLine.err_touch] else []
      let l3 := if (s.hdr b.next).prev ≠ block then [DumpLine.err_backlink] else []
      let l4 := if b.tag = c.PU_FREE ∧ (s.hdr b.next).tag = c.PU_FREE
        then [DumpLine.err_two_free] else []
      match dumpLoop c s zone lowtag hightag fuel b.next with
      | .ok rest => .ok (l1 ++ l2 ++ l3 ++ l4 ++ rest)
      | .fatal e => .fatal e
      | .outOfFuel => .outOfFuel

/-- `Z_DumpHeap_Zone`: the block and error lines it prints, after its two header lines. -/
def Z_DumpHeap_Zone (c : Platform) (fuel : Nat) (s : State) (zone lowtag hightag : Int) :
    Outcome (List DumpLine) :=
  dumpLoop c s zone lowtag hightag fuel (s.hdr (blocklist c zone)).next

/-! ## Z_CheckHeap -/

/-- `Z_ChangeTag2` (the arguments `file` and `line` only label the error message). -/
def Z_ChangeTag2 (c : Platform) (s : State) (ptr tag : Int) : Outcome State :=
  let block := ptr - c.sizeof_memblock
  if (s.hdr block).id ≠ ZONEID then .fatal .changetag_no_zoneid
  else if tag ≥ c.PU_PURGELEVEL ∧ (s.hdr block).user = 0 then .fatal .changetag_no_owner
  else .ok (s.setHdr block (fun b => { b with tag := tag }))

/-- A memory in which every header and every cell is zero. -/
def zeroMem : State := ⟨0, 0, fun _ => 0, fun _ => 0, fun _ => ⟨0, 0, 0, 0, 0, 0⟩, fun _ => 0⟩

/-- The state a call that returns leaves behind (`d` when the call does not return). -/
def stateOf (o : Outcome (State × Int)) (d : State) : State :=
  match o with
  | .ok (s, _) => s
  | _ => d

/-- The two pools right after `Z_Init` on the 32 bit target: the main zone at
address 1000 with 1024 bytes behind its header, the secondary zone at address
5000 with 512 bytes behind its header. -/
def fresh : State := Z_Init ilp32 zeroMem 1000 1056 5000 544

/-- `fresh` after `Z_Malloc (100, PU_CACHE, 7777)`: the cache block `X` of 124
bytes at 1032 (pointer 1056, owner slot 7777), then a free block of 900 bytes at
1156, where the rover is. -/
def withCache : State := stateOf (Z_Malloc ilp32 100 fresh 100 8 7777) fresh


/-! ## The invariant of a pool -/

/-- The merge both halves of `Z_Free` perform: the block `n` that follows `a`
is taken into `a`, and a rover that pointed at `n` is moved to `a`. -/
def absorb (s : State) (zone a n : Int) : State :=
  let s := s.setHdr a (fun o => { o with size := wrapInt (o.size + (s.hdr n).size) })
  let s := s.setHdr a (fun o => { o with next := (s.hdr n).next })
  let s := s.setHdr (s.hdr a).next (fun x => { x with prev := a })
  if n = s.zrover zone then s.setRover zone a else s

/-- The invariant of the pool at `zone`, whose list holds the headers at the
addresses `N` (the sentinel among them).  The blocks tile the bytes from the end
of the zone header to the end of the zone, the links are symmetric, every block
has room for its header, a block that is not free carries the marker, the rover
is in the list, and no two neighbours are both free, except that a pair whose
first block is in `ex` may be (as it is in the middle of `Z_Free` and of
`Z_Malloc_Zone`).  The zone lies at an address that is not negative, so that no
block is at `NULL`. -/
structure WFx (c : Platform) (s : State) (zone : Int) (N ex : List Int) : Prop where
  zone_pos : 0 ≤ zone
  zsize_hi : s.zsize zone < 2147483648
  sent_mem : blocklist c zone ∈ N
  rover_mem : s.zrover zone ∈ N
  sent_tag : (s.hdr (blocklist c zone)).tag = c.PU_STATIC
  first : (s.hdr (blocklist c zone)).next = zone + c.sizeof_memzone
  next_mem : ∀ x ∈ N, (s.hdr x).next ∈ N
  prev_mem : ∀ x ∈ N, (s.hdr x).prev ∈ N
  prev_next : ∀ x ∈ N, (s.hdr (s.hdr x).next).prev = x
  next_prev : ∀ x ∈ N, (s.hdr (s.hdr x).prev).next = x
  adj_next : ∀ x ∈ N, x ≠ blocklist c zone → (s.hdr x).next ≠ blocklist c zone →
    x + (s.hdr x).size = (s.hdr x).next
  adj_last : ∀ x ∈ N, x ≠ blocklist c zone → (s.hdr x).next = blocklist c zone →
    x + (s.hdr x).size = zone + s.zsize zone
  no_ff : ∀ x ∈ N, x ∉ ex →
    ¬ ((s.hdr x).tag = c.PU_FREE ∧ (s.hdr (s.hdr x).next).tag = c.PU_FREE)
  size_ge : ∀ x ∈ N, x ≠ blocklist c zone → c.sizeof_memblock ≤ (s.hdr x).size
  lo : ∀ x ∈ N, x ≠ blocklist c zone → zone + c.sizeof_memzone ≤ x
  hi : ∀ x ∈ N, x ≠ blocklist c zone → x + (s.hdr x).size ≤ zone + s.zsize zone
  marked : ∀ x ∈ N, x ≠ blocklist c zone → (s.hdr x).tag ≠ c.PU_FREE → (s.hdr x).id = ZONEID
  disj : ∀ x ∈ N, ∀ y ∈ N, x ≠ blocklist c zone → x < y → x + (s.hdr x).size ≤ y

/-- The invariant of a pool between calls. -/
def WF (c : Platform) (s : State) (zone : Int) (N : List Int) : Prop := WFx c s zone N []

/-- The list of a pool after `Z_Free` of its block `b`: `b` leaves the list when
the block before it is free, and the block after `b` leaves it when it is free. -/
def freedList (c : Platform) (s : State) (b : Int) (N : List Int) : List Int :=
  let N1 := if (s.hdr (s.hdr b).prev).tag = c.PU_FREE then N.filter (fun x => decide (x ≠ b)) else N
  if (s.hdr (s.hdr b).next).tag = c.PU_FREE
    then N1.filter (fun x => decide (x ≠ (s.hdr b).next)) else N1

/-- The block that holds the bytes of `b` after `Z_Free`: the block before `b`
when that is free, else `b`. -/
def mergedStart (c : Platform) (s : State) (b : Int) : Int :=
  if (s.hdr (s.hdr b).prev).tag = c.PU_FREE then (s.hdr b).prev else b

/-- The node that follows the merged block after `Z_Free` of `b`. -/
def mergedNext (c : Platform) (s : State) (b : Int) : Int :=
  if (s.hdr (s.hdr b).next).tag = c.PU_FREE then (s.hdr (s.hdr b).next).next else (s.hdr b).next

/-- The size of the merged block after `Z_Free` of `b`. -/
def mergedSize (c : Platform) (s : State) (b : Int) : Int :=
  (if (s.hdr (s.hdr b).prev).tag = c.PU_FREE then (s.hdr (s.hdr b).prev).size else 0)
    + (s.hdr b).size
    + (if (s.hdr (s.hdr b).next).tag = c.PU_FREE then (s.hdr (s.hdr b).next).size else 0)

/-- The header `b` once it is marked free. -/
def clearedHdr (c : Platform) (s : State) (b x : Int) : memblock_t :=
  if x = b then { s.hdr b with tag := c.PU_FREE, user := 0, id := 0 } else s.hdr x

/-- The headers after `Z_Free` of `b`, for every address but those of the blocks
that were taken into a neighbour. -/
def freedHdr (c : Platform) (s : State) (b x : Int) : memblock_t :=
  if x = mergedNext c s b then { clearedHdr c s b x with prev := mergedStart c s b }
  else if x = mergedStart c s b then
    { clearedHdr c s b x with size := mergedSize c s b, next := mergedNext c s b }
  else clearedHdr c s b x

/-- The two pools seen from one of them: `zone` with the list `N` is the main or
the secondary zone, `other` with the list `M` is the other one, both satisfy the
invariant and their spans do not overlap. -/
structure TwoZones (c : Platform) (s : State) (zone : Int) (N : List Int) (other : Int)
    (M : List Int) : Prop where
  wf : WF c s zone N
  wfo : WF c s other M
  apart : zone + s.zsize zone ≤ other ∨ other + s.zsize other ≤ zone
  which : (zone = s.mainzone ∧ other = s.secondaryzone) ∨
    (zone = s.secondaryzone ∧ other = s.mainzone)

/-- The state `installBlock` returns when it returns. -/
def installed (c : Platform) (s : State) (zone base tag user : Int) : State :=
  let s := s.setHdr base (fun b => { b with user := user })
  let s := if user ≠ 0 then s.setSlot user (base + c.sizeof_memblock) else s
  let s := s.setHdr base (fun b => { b with tag := tag, id := ZONEID })
  s.setRover zone (s.hdr base).next

/-- The block the scan of `Z_Malloc_Zone` begins with (lines 212-216): the rover,
or the block before it when that is free. -/
def scanBase (c : Platform) (s : State) (zone : Int) : Int :=
  if (s.hdr (s.hdr (s.zrover zone)).prev).tag = c.PU_FREE then (s.hdr (s.zrover zone)).prev
  else s.zrover zone

/-- The block at which the scan of `Z_Malloc_Zone` gives up (line 218): the one
before the block it begins with. -/
def scanStart (c : Platform) (s : State) (zone : Int) : Int :=
  (s.hdr (scanBase c s zone)).prev

/-- A 64 bit target: 8 byte pointers, 4 byte `int`s, the same tag values. -/
def lp64 : Platform where
  MEM_ALIGN := 8
  sizeof_memblock := 40
  sizeof_memzone := 56
  off_blocklist := 8
  PU_STATIC := 1
  PU_FREE := 4
  PU_PURGELEVEL := 7
  PU_CACHE := 8

/-- The two pools right after `Z_Init` on the 64 bit target, the main zone with
1024 bytes behind its header, the secondary zone with 512. -/
def fresh64 : State := Z_Init lp64 zeroMem 1000 1080 5000 568

@[simp] theorem setHdr_hdr (s : State) (a : Int) (f : memblock_t → memblock_t) (x : Int) :
    (s.setHdr a f).hdr x = if x = a then f (s.hdr a) else s.hdr x := rfl
@[simp] theorem setHdr_zrover (s : State) (a : Int) (f : memblock_t → memblock_t) :
    (s.setHdr a f).zrover = s.zrover := rfl
@[simp] theorem setRover_hdr (s : State) (z r : Int) : (s.setRover z r).hdr = s.hdr := rfl
@[simp] theorem setRover_zrover (s : State) (z r x : Int) :
    (s.setRover z r).zrover x = if x = z then r else s.zrover x := rfl
@[simp] theorem setSlot_hdr (s : State) (a v : Int) : (s.setSlot a v).hdr = s.hdr := rfl
theorem setHdr_id (s : State) (a : Int) (f : memblock_t → memblock_t) (x : Int)
    (h : ∀ b, (f b).id = b.id) : ((s.setHdr a f).hdr x).id = (s.hdr x).id := by
  simp only [setHdr_hdr]
  split_ifs with e
  · rw [h, e]
  · rfl

theorem markFree_hdr (c : Platform) (s : State) (b x : Int) :
    (markFree c s b).hdr x =
      if x = b then { s.hdr b with tag := c.PU_FREE, user := 0, id := 0 } else s.hdr x := by
  unfold markFree
  by_cases h : (s.hdr b).tag ≠ c.PU_FREE ∧ (s.hdr b).user ≠ 0 <;> simp [h]

theorem mergePrev_id (c : Platform) (s : State) (z b x : Int) :
    ((mergePrev c s z b).1.hdr x).id = (s.hdr x).id := by
  unfold mergePrev
  simp only []
  split_ifs <;> simp only [setRover_hdr, setHdr_id, implies_true]

theorem mergeNext_id (c : Platform) (s : State) (z b x : Int) :
    ((mergeNext c s z b).hdr x).id = (s.hdr x).id := by
  unfold mergeNext
  simp only []
  split_ifs <;> simp only [setRover_hdr, setHdr_id, implies_true]

theorem freeBlock_id (c : Platform) (s : State) (z b x : Int) :
    ((freeBlock c s z b).hdr x).id = if x = b then 0 else (s.hdr x).id := by
  unfold freeBlock
  simp only [mergeNext_id, mergePrev_id, markFree_hdr]
  split_ifs <;> rfl

/-- The zone `Z_Free` finds for a header that lies in one of the two spans. -/
theorem Z_Free_ok (c : Platform) (s : State) (p : Int)
    (hid : (s.hdr (p - c.sizeof_memblock)).id = ZONEID)
    (hz : (s.mainzone ≤ p - c.sizeof_memblock ∧
            p - c.sizeof_memblock < s.mainzone + s.zsize s.mainzone) ∨
          (s.secondaryzone ≤ p - c.sizeof_memblock ∧
            p - c.sizeof_memblock < s.secondaryzone + s.zsize s.secondaryzone)) :
    ∃ z, Z_Free c s p = .ok (freeBlock c s z (p - c.sizeof_memblock)) := by
  unfold Z_Free
  simp only [hid, ne_eq, not_true_eq_false, if_false]
  by_cases h1 : s.mainzone ≤ p - c.sizeof_memblock ∧
      p - c.sizeof_memblock < s.mainzone + s.zsize s.mainzone
  · exact ⟨s.mainzone, by simp only [h1, and_self, if_true]⟩
  · rcases hz with hz | hz
    · exact absurd hz h1
    · exact ⟨s.secondaryzone, by simp only [h1, if_false, hz, and_self, if_true]⟩

/-- C10. `Z_Free ptr` ends in a fatal error when the header before `ptr` does not
carry `ZONEID`, and when that header lies in neither zone's span.  For a pointer
whose header carries `ZONEID` and lies in a zone's span (a valid live pointer),
the first `Z_Free` returns and leaves the marker cleared (`0`), and a second
`Z_Free` of the same pointer right after it is fatal. -/
theorem Z_Free_rejects_invalid (c : Platform) (s : State) (ptr : Int) :
    ((s.hdr (ptr - c.sizeof_memblock)).id ≠ ZONEID → ∃ e, Z_Free c s ptr = .fatal e) ∧
    (¬ (s.mainzone ≤ ptr - c.sizeof_memblock ∧
          ptr - c.sizeof_memblock < s.mainzone + s.zsize s.mainzone) →
      ¬ (s.secondaryzone ≤ ptr - c.sizeof_memblock ∧
          ptr - c.sizeof_memblock < s.secondaryzone + s.zsize s.secondaryzone) →
      ∃ e, Z_Free c s ptr = .fatal e) ∧
    ((s.hdr (ptr - c.sizeof_memblock)).id = ZONEID →
      ((s.mainzone ≤ ptr - c.sizeof_memblock ∧
          ptr - c.sizeof_memblock < s.mainzone + s.zsize s.mainzone) ∨
        (s.secondaryzone ≤ ptr - c.sizeof_memblock ∧
          ptr - c.sizeof_memblock < s.secondaryzone + s.zsize s.secondaryzone)) →
      ∃ s1, Z_Free c s ptr = .ok s1 ∧ (s1.hdr (ptr - c.sizeof_memblock)).id = 0 ∧
        Z_Free c s1 ptr = .fatal .free_no_zoneid) := by
  refine ⟨?_, ?_, ?_⟩
  · intro h
    exact ⟨.free_no_zoneid, by unfold Z_Free; simp only [h, ne_eq, not_false_eq_true, if_true]⟩
  · intro h1 h2
    unfold Z_Free
    simp only [h1, h2, if_false]
    split_ifs
    · exact ⟨_, rfl⟩
    · exact ⟨_, rfl⟩
  · intro hid hz
    obtain ⟨z, hz⟩ := Z_Free_ok c s ptr hid hz
    refine ⟨_, hz, ?_, ?_⟩
    · rw [freeBlock_id, if_pos rfl]
    · unfold Z_Free
      have h0 : ((freeBlock c s z (ptr - c.sizeof_memblock)).hdr (ptr - c.sizeof_memblock)).id
          ≠ ZONEID := by
        rw [freeBlock_id, if_pos rfl]
        decide
      simp only [h0, ne_eq, not_false_eq_true, if_true]

/-- C10 at a concrete input: the pointer 1056 of the cache block of `withCache`
is freed once, and the second `Z_Free` is fatal. -/
theorem Z_Free_rejects_invalid_witness :
    ∃ s1, Z_Free ilp32 withCache 1056 = .ok s1 ∧ (s1.hdr (1056 - ilp32.sizeof_memblock)).id = 0 ∧
      Z_Free ilp32 s1 1056 = .fatal .free_no_zoneid :=
  (Z_Free_rejects_invalid ilp32 withCache 1056).2.2 (by decide) (by decide)

/-! ## C5: the owner slot of a released block -/

/-- C9. `Z_Malloc` returns the main pool's result when `Z_Malloc_Zone` returns
a pointer there; when the main pool signals no space it returns the secondary
pool's result when that is a pointer; when both signal no space it returns
`NULL` exactly when `tag ≥ PU_CACHE` and ends in the fatal error exactly when
`tag < PU_CACHE`. -/
theorem Z_Malloc_two_pools (c : Platform) (fuel : Nat) (s : State) (size tag user : Int) :
    (∀ s1 p, Z_Malloc_Zone c fuel s s.mainzone (requestSize c size) tag user = .ok (s1, p) →
      p ≠ 0 → Z_Malloc c fuel s size tag user = .ok (s1, p)) ∧
    (∀ s1 s2 p, Z_Malloc_Zone c fuel s s.mainzone (requestSize c size) tag user = .ok (s1, 0) →
      Z_Malloc_Zone c fuel s1 s1.secondaryzone (requestSize c size) tag user = .ok (s2, p) →
      p ≠ 0 → Z_Malloc c fuel s size tag user = .ok (s2, p)) ∧
    (∀ s1 s2, Z_Malloc_Zone c fuel s s.mainzone (requestSize c size) tag user = .ok (s1, 0) →
      Z_Malloc_Zone c fuel s1 s1.secondaryzone (requestSize c size) tag user = .ok (s2, 0) →
      (Z_Malloc c fuel s size tag user = .ok (s2, 0) ↔ tag ≥ c.PU_CACHE) ∧
      (Z_Malloc c fuel s size tag user = .fatal .malloc_failed ↔ tag < c.PU_CACHE)) := by
  refine ⟨?_, ?_, ?_⟩
  · intro s1 p h hp
    unfold Z_Malloc
    simp only [h, hp, if_false]
  · intro s1 s2 p h1 h2 hp
    unfold Z_Malloc
    simp only [h1, h2, hp, if_true, if_false]
  · intro s1 s2 h1 h2
    unfold Z_Malloc
    simp only [h1, h2, if_true]
    by_cases ht : tag ≥ c.PU_CACHE
    · simp only [ht, if_true, true_iff, iff_true]
      constructor
      · trivial
      · constructor
        · intro h; cases h
        · intro h; omega
    · simp only [ht, if_false, iff_false]
      constructor
      · intro h; cases h
      · constructor
        · intro _; omega
        · intro _; trivial

/-- C9 at a concrete input: with `withCache`, a request of 900 bytes finds no
space in either pool; at tag `PU_CACHE` the result is `NULL`, at tag `PU_STATIC`
the call is fatal. -/
theorem Z_Malloc_two_pools_witness :
    (∃ s2, Z_Malloc ilp32 100 withCache 900 ilp32.PU_CACHE 7000 = .ok (s2, 0)) ∧
      Z_Malloc ilp32 100 withCache 900 ilp32.PU_STATIC 0 = .fatal .malloc_failed :=
  ⟨⟨_, rfl⟩, rfl⟩

/-! ## C3: a purgeable tag without an owner -/

/-- C3, the code at the failing input: with `withCache` neither pool has room
for 900 bytes, and `Z_Malloc (900, PU_CACHE, NULL)` returns `NULL` instead of
ending in the fatal error. -/
theorem Z_Malloc_no_owner_returns_null :
    ilp32.PU_CACHE ≥ ilp32.PU_PURGELEVEL ∧
      ∃ s2, Z_Malloc ilp32 100 withCache 900 ilp32.PU_CACHE 0 = .ok (s2, 0) :=
  ⟨by decide, _, rfl⟩

/-! ## Arithmetic of `int` -/

theorem wrapInt_eq (x : Int) (h1 : -2147483648 ≤ x) (h2 : x < 2147483648) : wrapInt x = x := by
  unfold wrapInt
  omega

/-! ## The merge -/

theorem mergePrev_eq (c : Platform) (s : State) (z b : Int) :
    mergePrev c s z b =
      if (s.hdr (s.hdr b).prev).tag = c.PU_FREE then (absorb s z (s.hdr b).prev b, (s.hdr b).prev)
      else (s, b) := rfl

theorem mergeNext_eq (c : Platform) (s : State) (z b : Int) :
    mergeNext c s z b =
      if (s.hdr (s.hdr b).next).tag = c.PU_FREE then absorb s z b (s.hdr b).next else s := rfl

theorem absorb_hdr (s : State) (z a n x : Int) (h1 : a ≠ n) (h2 : (s.hdr n).next ≠ a) :
    (absorb s z a n).hdr x =
      if x = (s.hdr n).next then { s.hdr (s.hdr n).next with prev := a }
      else if x = a then
        { s.hdr a with size := wrapInt ((s.hdr a).size + (s.hdr n).size), next := (s.hdr n).next }
      else s.hdr x := by
  have h1' : n ≠ a := fun h => h1 h.symm
  have hr : ∀ t : State, (if n = t.zrover z then t.setRover z a else t).hdr = t.hdr := by
    intro t
    split_ifs <;> rfl
  unfold absorb
  simp only [hr]
  simp only [setHdr_hdr, h1', if_false, if_true]
  by_cases hx : x = (s.hdr n).next
  · simp only [hx, if_true, h2, if_false]
  · simp only [hx, if_false]
    split_ifs <;> rfl

theorem absorb_zrover (s : State) (z a n x : Int) :
    (absorb s z a n).zrover x =
      if x = z then (if n = s.zrover z then a else s.zrover z) else s.zrover x := by
  unfold absorb
  simp only [setHdr_zrover]
  by_cases hn : n = s.zrover z
  · simp only [hn, if_true, setRover_zrover, setHdr_zrover]
  · simp only [hn, if_false, setHdr_zrover]
    split_ifs with hz
    · rw [hz]
    · rfl

theorem absorb_zsize (s : State) (z a n : Int) : (absorb s z a n).zsize = s.zsize := by
  unfold absorb
  simp only []
  split_ifs <;> rfl

theorem absorb_slot (s : State) (z a n : Int) : (absorb s z a n).slot = s.slot := by
  unfold absorb
  simp only []
  split_ifs <;> rfl

theorem absorb_mainzone (s : State) (z a n : Int) : (absorb s z a n).mainzone = s.mainzone := by
  unfold absorb
  simp only []
  split_ifs <;> rfl

theorem absorb_secondaryzone (s : State) (z a n : Int) :
    (absorb s z a n).secondaryzone = s.secondaryzone := by
  unfold absorb
  simp only []
  split_ifs <;> rfl

theorem Platform.Valid.sizes (c : Platform) (hc : c.Valid) :
    0 < c.sizeof_memblock ∧ c.sizeof_memblock ≤ 64 ∧ 0 ≤ c.off_blocklist ∧
      c.off_blocklist + c.sizeof_memblock ≤ c.sizeof_memzone := by
  obtain ⟨_, h1, h2, h3, h4, _⟩ := hc
  unfold MINFRAGMENT at h2
  exact ⟨h1, h2, h3, h4⟩

theorem Platform.Valid.tags (c : Platform) (hc : c.Valid) :
    c.PU_STATIC ≠ c.PU_FREE ∧ c.PU_STATIC < c.PU_PURGELEVEL ∧ c.PU_FREE < c.PU_PURGELEVEL ∧
      c.PU_PURGELEVEL ≤ c.PU_CACHE := by
  obtain ⟨_, _, _, _, _, h5, h6, h7, h8⟩ := hc
  exact ⟨h5, h6, h7, h8⟩

/-- A free node is a block, not the sentinel. -/
theorem WFx.ne_sent_of_free {c : Platform} {s : State} {z : Int} {N ex : List Int}
    (h : WFx c s z N ex) (hc : c.Valid) {x : Int} (hx : (s.hdr x).tag = c.PU_FREE) :
    x ≠ blocklist c z := by
  intro e
  rw [e, h.sent_tag] at hx
  exact (Platform.Valid.tags c hc).1 hx

/-- Taking the free block `n` into the free block `a` before it keeps the invariant. -/
theorem absorb_wf (c : Platform) (hc : c.Valid) (s : State) (z : Int) (N ex ex' : List Int)
    (a n : Int) (h : WFx c s z N ex) (ha : a ∈ N) (hn : (s.hdr a).next = n)
    (hta : (s.hdr a).tag = c.PU_FREE) (htn : (s.hdr n).tag = c.PU_FREE)
    (hex1 : ∀ x ∈ N, x ≠ a → x ≠ n → x ∉ ex' → x ∉ ex) (hex2 : a ∉ ex' → n ∉ ex) :
    WFx c (absorb s z a n) z (N.filter (fun x => decide (x ≠ n))) ex' := by
  obtain ⟨hs1, hs2, hs3, hs4⟩ := Platform.Valid.sizes c hc
  have hnN : n ∈ N := hn ▸ h.next_mem a ha
  have has : a ≠ blocklist c z := h.ne_sent_of_free hc hta
  have hns : n ≠ blocklist c z := h.ne_sent_of_free hc htn
  have hadj : a + (s.hdr a).size = n := by
    have := h.adj_next a ha has (by rw [hn]; exact hns)
    rw [hn] at this
    exact this
  have hsa := h.size_ge a ha has
  have hsn := h.size_ge n hnN hns
  have hloa := h.lo a ha has
  have hhin := h.hi n hnN hns
  have hzs := h.zsize_hi
  have han : a ≠ n := by omega
  have hnnN : (s.hdr n).next ∈ N := h.next_mem n hnN
  have hnna : (s.hdr n).next ≠ a := by
    intro e
    have := h.adj_next n hnN hns (by rw [e]; exact has)
    omega
  have hnnn : (s.hdr n).next ≠ n := by
    intro e
    have := h.adj_next n hnN hns (by rw [e]; exact hns)
    omega
  have hpn : (s.hdr n).prev = a := by
    have := h.prev_next a ha
    rw [hn] at this
    exact this
  have hw : wrapInt ((s.hdr a).size + (s.hdr n).size) = (s.hdr a).size + (s.hdr n).size :=
    wrapInt_eq _ (by omega) (by omega)
  have hnext : ∀ x, ((absorb s z a n).hdr x).next =
      if x = a then (s.hdr n).next else (s.hdr x).next := by
    intro x
    rw [absorb_hdr s z a n x han hnna]
    by_cases h1 : x = (s.hdr n).next
    · rw [if_pos h1, if_neg (h1 ▸ hnna), h1]
    · rw [if_neg h1]
      by_cases h2 : x = a
      · rw [if_pos h2, if_pos h2]
      · rw [if_neg h2, if_neg h2]
  have hprev : ∀ x, ((absorb s z a n).hdr x).prev =
      if x = (s.hdr n).next then a else (s.hdr x).prev := by
    intro x
    rw [absorb_hdr s z a n x han hnna]
    by_cases h1 : x = (s.hdr n).next
    · rw [if_pos h1, if_pos h1]
    · rw [if_neg h1, if_neg h1]
      by_cases h2 : x = a
      · rw [if_pos h2, h2]
      · rw [if_neg h2]
  have hsize : ∀ x, ((absorb s z a n).hdr x).size =
      if x = a then (s.hdr a).size + (s.hdr n).size else (s.hdr x).size := by
    intro x
    rw [absorb_hdr s z a n x han hnna]
    by_cases h1 : x = (s.hdr n).next
    · rw [if_pos h1, if_neg (h1 ▸ hnna), h1]
    · rw [if_neg h1]
      by_cases h2 : x = a
      · rw [if_pos h2, if_pos h2]; exact hw
      · rw [if_neg h2, if_neg h2]
  have htag : ∀ x, ((absorb s z a n).hdr x).tag = (s.hdr x).tag := by
    intro x
    rw [absorb_hdr s z a n x han hnna]
    by_cases h1 : x = (s.hdr n).next
    · rw [if_pos h1, h1]
    · rw [if_neg h1]
      by_cases h2 : x = a
      · rw [if_pos h2, h2]
      · rw [if_neg h2]
  have hid : ∀ x, ((absorb s z a n).hdr x).id = (s.hdr x).id := by
    intro x
    rw [absorb_hdr s z a n x han hnna]
    by_cases h1 : x = (s.hdr n).next
    · rw [if_pos h1, h1]
    · rw [if_neg h1]
      by_cases h2 : x = a
      · rw [if_pos h2, h2]
      · rw [if_neg h2]
  have hmem : ∀ x, x ∈ N.filter (fun x => decide (x ≠ n)) ↔ x ∈ N ∧ x ≠ n := by
    intro x
    simp only [List.mem_filter, decide_eq_true_eq]
  -- next x = n only for x = a, prev x = n only for x = next n
  have hnx : ∀ x ∈ N, (s.hdr x).next = n → x = a := by
    intro x hx e
    have := h.prev_next x hx
    rw [e, hpn] at this
    exact this.symm
  have hpx : ∀ x ∈ N, (s.hdr x).prev = n → x = (s.hdr n).next := by
    intro x hx e
    have := h.next_prev x hx
    rw [e] at this
    exact this.symm
  have hnxx : ∀ x ∈ N, (s.hdr x).next = (s.hdr n).next → x = n := by
    intro x hx e
    have h1 := h.prev_next x hx
    have h2 := h.prev_next n hnN
    rw [e, h2] at h1
    exact h1.symm
  constructor
  · exact h.zone_pos
  · rw [absorb_zsize]; exact hzs
  · exact (hmem _).2 ⟨h.sent_mem, fun e => hns e.symm⟩
  · rw [absorb_zrover, if_pos rfl]
    by_cases hr : n = s.zrover z
    · rw [if_pos hr]; exact (hmem _).2 ⟨ha, han⟩
    · rw [if_neg hr]; exact (hmem _).2 ⟨h.rover_mem, fun e => hr e.symm⟩
  · rw [htag]; exact h.sent_tag
  · rw [hnext, if_neg (fun e => has e.symm)]; exact h.first
  · intro x hx
    obtain ⟨hxN, hxn⟩ := (hmem x).1 hx
    rw [hnext]
    by_cases h2 : x = a
    · rw [if_pos h2]; exact (hmem _).2 ⟨hnnN, hnnn⟩
    · rw [if_neg h2]
      exact (hmem _).2 ⟨h.next_mem x hxN, fun e => h2 (hnx x hxN e)⟩
  · intro x hx
    obtain ⟨hxN, hxn⟩ := (hmem x).1 hx
    rw [hprev]
    by_cases h1 : x = (s.hdr n).next
    · rw [if_pos h1]; exact (hmem _).2 ⟨ha, han⟩
    · rw [if_neg h1]
      exact (hmem _).2 ⟨h.prev_mem x hxN, fun e => h1 (hpx x hxN e)⟩
  · intro x hx
    obtain ⟨hxN, hxn⟩ := (hmem x).1 hx
    rw [hnext]
    by_cases h2 : x = a
    · rw [if_pos h2, hprev, if_pos rfl, h2]
    · rw [if_neg h2, hprev, if_neg (fun e => hxn (hnxx x hxN e))]
      exact h.prev_next x hxN
  · intro x hx
    obtain ⟨hxN, hxn⟩ := (hmem x).1 hx
    rw [hprev]
    by_cases h1 : x = (s.hdr n).next
    · rw [if_pos h1, hnext, if_pos rfl, h1]
    · rw [if_neg h1, hnext]
      have h3 : (s.hdr x).prev ≠ a := by
        intro e
        have := h.next_prev x hxN
        rw [e, hn] at this
        exact hxn this.symm
      rw [if_neg h3]
      exact h.next_prev x hxN
  · intro x hx hxs hnx'
    obtain ⟨hxN, hxn⟩ := (hmem x).1 hx
    rw [hnext] at hnx' ⊢
    rw [hsize]
    by_cases h2 : x = a
    · rw [if_pos h2] at hnx' ⊢
      rw [if_pos h2]
      have := h.adj_next n hnN hns hnx'
      omega
    · rw [if_neg h2] at hnx' ⊢
      rw [if_neg h2]
      exact h.adj_next x hxN hxs hnx'
  · intro x hx hxs hnx'
    obtain ⟨hxN, hxn⟩ := (hmem x).1 hx
    rw [hnext] at hnx'
    rw [hsize, absorb_zsize]
    by_cases h2 : x = a
    · rw [if_pos h2] at hnx'
      rw [if_pos h2]
      have := h.adj_last n hnN hns hnx'
      omega
    · rw [if_neg h2] at hnx'
      rw [if_neg h2]
      exact h.adj_last x hxN hxs hnx'
  · intro x hx hxe
    obtain ⟨hxN, hxn⟩ := (hmem x).1 hx
    rw [htag, htag, hnext]
    by_cases h2 : x = a
    · rw [if_pos h2]
      have := h.no_ff n hnN (hex2 (h2 ▸ hxe))
      intro hh
      exact this ⟨htn, hh.2⟩
    · rw [if_neg h2]
      exact h.no_ff x hxN (hex1 x hxN h2 hxn hxe)
  · intro x hx hxs
    obtain ⟨hxN, hxn⟩ := (hmem x).1 hx
    rw [hsize]
    have := h.size_ge x hxN hxs
    by_cases h2 : x = a
    · rw [if_pos h2]; omega
    · rw [if_neg h2]; exact this
  · intro x hx hxs
    obtain ⟨hxN, hxn⟩ := (hmem x).1 hx
    exact h.lo x hxN hxs
  · intro x hx hxs
    obtain ⟨hxN, hxn⟩ := (hmem x).1 hx
    rw [hsize, absorb_zsize]
    by_cases h2 : x = a
    · rw [if_pos h2]; omega
    · rw [if_neg h2]; exact h.hi x hxN hxs
  · intro x hx hxs
    obtain ⟨hxN, hxn⟩ := (hmem x).1 hx
    rw [htag, hid]
    exact h.marked x hxN hxs
  · intro x hx y hy hxs hxy
    obtain ⟨hxN, hxn⟩ := (hmem x).1 hx
    obtain ⟨hyN, hyn⟩ := (hmem y).1 hy
    rw [hsize]
    by_cases h2 : x = a
    · rw [if_pos h2]
      have h3 := h.disj a ha y hyN has (h2 ▸ hxy)
      have h4 : n < y := by omega
      have := h.disj n hnN y hyN hns h4
      omega
    · rw [if_neg h2]
      exact h.disj x hxN y hyN hxs hxy

/-- The invariant only reads the links, sizes, tags and markers of the headers
in the list, the zone's size and its rover. -/
theorem WFx.retag {c : Platform} {s : State} {z : Int} {N ex : List Int}
    (h : WFx c s z N ex) (s' : State) (ex' : List Int)
    (hz : s'.zsize z = s.zsize z) (hr : s'.zrover z ∈ N)
    (hn : ∀ x ∈ N, (s'.hdr x).next = (s.hdr x).next)
    (hp : ∀ x ∈ N, (s'.hdr x).prev = (s.hdr x).prev)
    (hs : ∀ x ∈ N, (s'.hdr x).size = (s.hdr x).size)
    (hst : (s'.hdr (blocklist c z)).tag = c.PU_STATIC)
    (hff : ∀ x ∈ N, x ∉ ex' →
      ¬ ((s'.hdr x).tag = c.PU_FREE ∧ (s'.hdr (s.hdr x).next).tag = c.PU_FREE))
    (hm : ∀ x ∈ N, x ≠ blocklist c z → (s'.hdr x).tag ≠ c.PU_FREE → (s'.hdr x).id = ZONEID) :
    WFx c s' z N ex' := by
  constructor
  · exact h.zone_pos
  · rw [hz]; exact h.zsize_hi
  · exact h.sent_mem
  · exact hr
  · exact hst
  · rw [hn _ h.sent_mem]; exact h.first
  · intro x hx; rw [hn x hx]; exact h.next_mem x hx
  · intro x hx; rw [hp x hx]; exact h.prev_mem x hx
  · intro x hx; rw [hn x hx, hp _ (h.next_mem x hx)]; exact h.prev_next x hx
  · intro x hx; rw [hp x hx, hn _ (h.prev_mem x hx)]; exact h.next_prev x hx
  · intro x hx; rw [hn x hx, hs x hx]; exact h.adj_next x hx
  · intro x hx; rw [hn x hx, hs x hx, hz]; exact h.adj_last x hx
  · intro x hx hxe; rw [hn x hx]; exact hff x hx hxe
  · intro x hx; rw [hs x hx]; exact h.size_ge x hx
  · exact h.lo
  · intro x hx; rw [hs x hx, hz]; exact h.hi x hx
  · exact hm
  · intro x hx y hy; rw [hs x hx]; exact h.disj x hx y hy

/-- A state that agrees with `s` on the headers of the list, on the zone's size
and on its rover satisfies the invariant as `s` does. -/
theorem WFx.frame {c : Platform} {s : State} {z : Int} {N ex : List Int}
    (h : WFx c s z N ex) (s' : State)
    (hz : s'.zsize z = s.zsize z) (hr : s'.zrover z = s.zrover z)
    (hh : ∀ x ∈ N, s'.hdr x = s.hdr x) : WFx c s' z N ex := by
  refine h.retag s' ex hz (hr ▸ h.rover_mem) (fun x hx => by rw [hh x hx])
    (fun x hx => by rw [hh x hx]) (fun x hx => by rw [hh x hx]) ?_ ?_ ?_
  · rw [hh _ h.sent_mem]; exact h.sent_tag
  · intro x hx hxe
    rw [hh x hx, hh _ (h.next_mem x hx)]
    exact h.no_ff x hx hxe
  · intro x hx
    rw [hh x hx]
    exact h.marked x hx

/-- Exceptions may be dropped for pairs that are not both free. -/
theorem WFx.reex {c : Platform} {s : State} {z : Int} {N ex : List Int}
    (h : WFx c s z N ex) (ex' : List Int)
    (hff : ∀ x ∈ N, x ∉ ex' → x ∈ ex →
      ¬ ((s.hdr x).tag = c.PU_FREE ∧ (s.hdr (s.hdr x).next).tag = c.PU_FREE)) :
    WFx c s z N ex' := by
  refine h.retag s ex' rfl h.rover_mem (fun _ _ => rfl) (fun _ _ => rfl) (fun _ _ => rfl)
    h.sent_tag ?_ h.marked
  intro x hx hxe
  by_cases hxx : x ∈ ex
  · exact hff x hx hxe hxx
  · exact h.no_ff x hx hxx

theorem markFree_zsize (c : Platform) (s : State) (b : Int) :
    (markFree c s b).zsize = s.zsize := by
  unfold markFree
  simp only []
  split_ifs <;> rfl

theorem markFree_zrover (c : Platform) (s : State) (b : Int) :
    (markFree c s b).zrover = s.zrover := by
  unfold markFree
  simp only []
  split_ifs <;> rfl

theorem markFree_mainzone (c : Platform) (s : State) (b : Int) :
    (markFree c s b).mainzone = s.mainzone := by
  unfold markFree
  simp only []
  split_ifs <;> rfl

theorem markFree_secondaryzone (c : Platform) (s : State) (b : Int) :
    (markFree c s b).secondaryzone = s.secondaryzone := by
  unfold markFree
  simp only []
  split_ifs <;> rfl

/-- After the block `b` is marked free, only the pairs around `b` may be both free. -/
theorem markFree_wfx (c : Platform) (s : State) (z : Int) (N : List Int) (b : Int)
    (h : WF c s z N) (hbs : b ≠ blocklist c z) :
    WFx c (markFree c s b) z N [(s.hdr b).prev, b] := by
  have hh : ∀ x, x ≠ b → (markFree c s b).hdr x = s.hdr x := by
    intro x hx
    rw [markFree_hdr, if_neg hx]
  have hb' : (markFree c s b).hdr b = { s.hdr b with tag := c.PU_FREE, user := 0, id := 0 } := by
    rw [markFree_hdr, if_pos rfl]
  have hall : ∀ x, ((markFree c s b).hdr x).next = (s.hdr x).next ∧
      ((markFree c s b).hdr x).prev = (s.hdr x).prev ∧
      ((markFree c s b).hdr x).size = (s.hdr x).size := by
    intro x
    by_cases hx : x = b
    · rw [hx, hb']; exact ⟨rfl, rfl, rfl⟩
    · rw [hh x hx]; exact ⟨rfl, rfl, rfl⟩
  refine WFx.retag h _ _ (by rw [markFree_zsize]) (by rw [markFree_zrover]; exact h.rover_mem)
    (fun x _ => (hall x).1) (fun x _ => (hall x).2.1) (fun x _ => (hall x).2.2) ?_ ?_ ?_
  · rw [hh _ (fun e => hbs e.symm)]; exact h.sent_tag
  · intro x hx hxe
    simp only [List.mem_cons, List.mem_singleton, List.not_mem_nil, or_false, not_or] at hxe
    have h1 : (s.hdr x).next ≠ b := by
      intro e
      have := h.prev_next x hx
      rw [e] at this
      exact hxe.1 this.symm
    rw [hh x hxe.2, hh _ h1]
    exact h.no_ff x hx (List.not_mem_nil x)
  · intro x hx hxs
    by_cases hxb : x = b
    · rw [hxb, hb']; intro hne; exact absurd rfl hne
    · rw [hh x hxb]; exact h.marked x hx hxs

/-- `Z_Free` of a block of the list keeps the invariant; the new list is `freedList`. -/
theorem freeBlock_wf (c : Platform) (hc : c.Valid) (s : State) (z : Int) (N : List Int) (b : Int)
    (h : WF c s z N) (hb : b ∈ N) (hbs : b ≠ blocklist c z) :
    WF c (freeBlock c s z b) z (freedList c s b N) := by
  obtain ⟨hs1, hs2, hs3, hs4⟩ := Platform.Valid.sizes c hc
  have h1 := markFree_wfx c s z N b h hbs
  have hpN : (s.hdr b).prev ∈ N := h.prev_mem b hb
  have hnN : (s.hdr b).next ∈ N := h.next_mem b hb
  have hpb : (s.hdr b).prev ≠ b := by
    intro e
    have h2 := h.next_prev b hb
    rw [e] at h2
    by_cases h3 : (s.hdr b).next = blocklist c z
    · exact hbs (h2 ▸ h3)
    · have := h.adj_next b hb hbs h3
      have := h.size_ge b hb hbs
      omega
  have hnb : (s.hdr b).next ≠ b := by
    intro e
    have := h.adj_next b hb hbs (by rw [e]; exact hbs)
    have := h.size_ge b hb hbs
    omega
  have hmb : (markFree c s b).hdr b = { s.hdr b with tag := c.PU_FREE, user := 0, id := 0 } := by
    rw [markFree_hdr, if_pos rfl]
  have hmp : (markFree c s b).hdr (s.hdr b).prev = s.hdr (s.hdr b).prev := by
    rw [markFree_hdr, if_neg hpb]
  have hmn : (markFree c s b).hdr (s.hdr b).next = s.hdr (s.hdr b).next := by
    rw [markFree_hdr, if_neg hnb]
  have hmbp : ((markFree c s b).hdr b).prev = (s.hdr b).prev := by rw [hmb]
  have hmbn : ((markFree c s b).hdr b).next = (s.hdr b).next := by rw [hmb]
  have hmbt : ((markFree c s b).hdr b).tag = c.PU_FREE := by rw [hmb]
  unfold freeBlock freedList
  simp only [mergePrev_eq, hmbp, hmp]
  by_cases hp : (s.hdr (s.hdr b).prev).tag = c.PU_FREE
  · -- the block before `b` is free: `b` is taken into it
    simp only [hp, if_true]
    have hps : (s.hdr b).prev ≠ blocklist c z := h.ne_sent_of_free hc hp
    have hnp : ((markFree c s b).hdr (s.hdr b).prev).next = b := by
      rw [hmp]; exact h.next_prev b hb
    have h2 := absorb_wf c hc (markFree c s b) z N _ [(s.hdr b).prev] (s.hdr b).prev b h1 hpN hnp
      (by rw [hmp]; exact hp) hmbt
      (by
        intro x _ hxa hxn hx
        simp only [List.mem_cons, List.mem_singleton, List.not_mem_nil, or_false, not_or]
        exact ⟨hxa, hxn⟩)
      (by intro hx; exact absurd (List.mem_singleton.2 rfl) hx)
    have hpadj : (s.hdr b).prev + (s.hdr (s.hdr b).prev).size = b := by
      have := h.adj_next _ hpN hps (by rw [h.next_prev b hb]; exact hbs)
      rw [h.next_prev b hb] at this
      exact this
    have hsb := h.size_ge b hb hbs
    have hsp := h.size_ge _ hpN hps
    have hnp' : (s.hdr b).next ≠ (s.hdr b).prev := by
      intro e
      by_cases h3 : (s.hdr b).next = blocklist c z
      · exact hps (e ▸ h3)
      · have := h.adj_next b hb hbs h3
        omega
    have hah := absorb_hdr (markFree c s b) z (s.hdr b).prev b
    simp only [hmbn] at hah
    have hnext2 : ((absorb (markFree c s b) z (s.hdr b).prev b).hdr (s.hdr b).prev).next
        = (s.hdr b).next := by
      rw [hah _ hpb hnp', if_neg (fun e => hnp' e.symm), if_pos rfl]
    have htn2 : ((absorb (markFree c s b) z (s.hdr b).prev b).hdr (s.hdr b).next).tag
        = (s.hdr (s.hdr b).next).tag := by
      rw [hah _ hpb hnp', if_pos rfl, hmn]
    have htp2 : ((absorb (markFree c s b) z (s.hdr b).prev b).hdr (s.hdr b).prev).tag
        = c.PU_FREE := by
      rw [hah _ hpb hnp', if_neg (fun e => hnp' e.symm), if_pos rfl, hmp]
      exact hp
    simp only [mergeNext_eq, hnext2, htn2]
    by_cases hnx : (s.hdr (s.hdr b).next).tag = c.PU_FREE
    · simp only [hnx, if_true]
      exact absorb_wf c hc _ z _ _ [] (s.hdr b).prev (s.hdr b).next h2
        (List.mem_filter.2 ⟨hpN, by simpa using hpb⟩) hnext2 htp2 (by rw [htn2]; exact hnx)
        (by
          intro x _ hxa _ _
          simpa using hxa)
        (by intro _; simpa using hnp')
    · simp only [hnx, if_false]
      refine h2.reex [] ?_
      intro x _ _ hx
      rw [List.mem_singleton] at hx
      rw [hx, hnext2, htn2]
      exact fun hh => hnx hh.2
  · -- the block before `b` is not free
    simp only [hp, if_false, mergeNext_eq, hmbn, hmn]
    have h2 : WFx c (markFree c s b) z N [b] := by
      refine h1.reex [b] ?_
      intro x _ hx1 hx2
      simp only [List.mem_cons, List.mem_singleton, List.not_mem_nil, or_false] at hx1 hx2
      rcases hx2 with e | e
      · rw [e, hmp]; exact fun hh => hp hh.1
      · exact absurd e hx1
    by_cases hnx : (s.hdr (s.hdr b).next).tag = c.PU_FREE
    · simp only [hnx, if_true]
      exact absorb_wf c hc _ z _ _ [] b (s.hdr b).next h2 hb hmbn hmbt (by rw [hmn]; exact hnx)
        (by
          intro x _ hxa _ _
          simpa using hxa)
        (by intro _; simpa using hnb)
    · simp only [hnx, if_false]
      refine h2.reex [] ?_
      intro x _ _ hx
      rw [List.mem_singleton] at hx
      rw [hx, hmbn, hmn]
      exact fun hh => hnx hh.2

theorem clearedHdr_eq (c : Platform) (s : State) (b x : Int) :
    clearedHdr c s b x = (markFree c s b).hdr x := by
  rw [markFree_hdr]; rfl

/-- The links around a block of the list. -/
theorem WFx.around {c : Platform} {s : State} {z : Int} {N ex : List Int}
    (h : WFx c s z N ex) (hc : c.Valid) {b : Int} (hb : b ∈ N) (hbs : b ≠ blocklist c z) :
    (s.hdr b).prev ∈ N ∧ (s.hdr b).next ∈ N ∧ (s.hdr b).prev ≠ b ∧ (s.hdr b).next ≠ b ∧
    (s.hdr (s.hdr b).prev).next = b ∧ (s.hdr (s.hdr b).next).prev = b ∧
    ((s.hdr b).prev ≠ blocklist c z → (s.hdr b).prev + (s.hdr (s.hdr b).prev).size = b) ∧
    ((s.hdr b).next ≠ blocklist c z → b + (s.hdr b).size = (s.hdr b).next) ∧
    ((s.hdr b).next ≠ blocklist c z → (s.hdr b).next ≠ (s.hdr b).prev) := by
  obtain ⟨hs1, hs2, hs3, hs4⟩ := Platform.Valid.sizes c hc
  have hpN : (s.hdr b).prev ∈ N := h.prev_mem b hb
  have hnN : (s.hdr b).next ∈ N := h.next_mem b hb
  have hsb := h.size_ge b hb hbs
  have hnp := h.next_prev b hb
  have h7 : (s.hdr b).prev ≠ blocklist c z → (s.hdr b).prev + (s.hdr (s.hdr b).prev).size = b := by
    intro hps
    have := h.adj_next _ hpN hps (by rw [hnp]; exact hbs)
    rw [hnp] at this
    exact this
  have h8 : (s.hdr b).next ≠ blocklist c z → b + (s.hdr b).size = (s.hdr b).next :=
    fun hns => h.adj_next b hb hbs hns
  refine ⟨hpN, hnN, ?_, ?_, hnp, h.prev_next b hb, h7, h8, ?_⟩
  · intro e
    by_cases hps : (s.hdr b).prev = blocklist c z
    · exact hbs (e ▸ hps)
    · have := h7 hps
      have := h.size_ge _ hpN hps
      omega
  · intro e
    have := h8 (by rw [e]; exact hbs)
    omega
  · intro hns e
    have h1 := h8 hns
    by_cases hps : (s.hdr b).prev = blocklist c z
    · exact hns (e.trans hps)
    · have := h7 hps
      have := h.size_ge _ hpN hps
      omega

/-- The headers after `Z_Free` of a block of the list. -/
theorem freeBlock_hdr (c : Platform) (hc : c.Valid) (s : State) (z : Int) (N : List Int)
    (b x : Int) (h : WF c s z N) (hb : b ∈ N) (hbs : b ≠ blocklist c z)
    (hx1 : ¬ ((s.hdr (s.hdr b).prev).tag = c.PU_FREE ∧ x = b))
    (hx2 : ¬ ((s.hdr (s.hdr b).next).tag = c.PU_FREE ∧ x = (s.hdr b).next)) :
    (freeBlock c s z b).hdr x = freedHdr c s b x := by
  obtain ⟨hs1, hs2, hs3, hs4⟩ := Platform.Valid.sizes c hc
  obtain ⟨hpN, hnN, hpb, hnb, hnp, hpn, hadjp, hadjn, hnp'⟩ := h.around hc hb hbs
  have hsb := h.size_ge b hb hbs
  have hzs := h.zsize_hi
  have hmb : (markFree c s b).hdr b = { s.hdr b with tag := c.PU_FREE, user := 0, id := 0 } := by
    rw [markFree_hdr, if_pos rfl]
  have hmo : ∀ y, y ≠ b → (markFree c s b).hdr y = s.hdr y := by
    intro y hy
    rw [markFree_hdr, if_neg hy]
  have hmbp : ((markFree c s b).hdr b).prev = (s.hdr b).prev := by rw [hmb]
  have hmbn : ((markFree c s b).hdr b).next = (s.hdr b).next := by rw [hmb]
  have hmbs : ((markFree c s b).hdr b).size = (s.hdr b).size := by rw [hmb]
  unfold freeBlock freedHdr mergedStart mergedNext mergedSize
  simp only [clearedHdr_eq, mergePrev_eq, hmbp, hmo _ hpb]
  by_cases hp : (s.hdr (s.hdr b).prev).tag = c.PU_FREE
  · have hps : (s.hdr b).prev ≠ blocklist c z := h.ne_sent_of_free hc hp
    have hxb : x ≠ b := fun e => hx1 ⟨hp, e⟩
    have hap := hadjp hps
    have hsp := h.size_ge _ hpN hps
    have hlop := h.lo _ hpN hps
    have hhib := h.hi b hb hbs
    have hnp2 : (s.hdr b).next ≠ (s.hdr b).prev := by
      intro e
      by_cases hns : (s.hdr b).next = blocklist c z
      · exact hps (e ▸ hns)
      · exact hnp' hns e
    have hah := absorb_hdr (markFree c s b) z (s.hdr b).prev b
    simp only [hmbn] at hah
    have hah' := fun y => hah y hpb hnp2
    simp only [hp, if_true, mergeNext_eq]
    have hnext2 : ((absorb (markFree c s b) z (s.hdr b).prev b).hdr (s.hdr b).prev).next
        = (s.hdr b).next := by
      rw [hah', if_neg (fun e => hnp2 e.symm), if_pos rfl]
    have hn2 : (absorb (markFree c s b) z (s.hdr b).prev b).hdr (s.hdr b).next
        = { s.hdr (s.hdr b).next with prev := (s.hdr b).prev } := by
      rw [hah', if_pos rfl, hmo _ hnb]
    have hp2 : (absorb (markFree c s b) z (s.hdr b).prev b).hdr (s.hdr b).prev
        = { s.hdr (s.hdr b).prev with
            size := wrapInt ((s.hdr (s.hdr b).prev).size + (s.hdr b).size),
            next := (s.hdr b).next } := by
      rw [hah', if_neg (fun e => hnp2 e.symm), if_pos rfl, hmo _ hpb, hmbs]
    have hw1 : wrapInt ((s.hdr (s.hdr b).prev).size + (s.hdr b).size)
        = (s.hdr (s.hdr b).prev).size + (s.hdr b).size := wrapInt_eq _ (by omega) (by omega)
    simp only [hnext2, hn2]
    by_cases hnx : (s.hdr (s.hdr b).next).tag = c.PU_FREE
    · have hns : (s.hdr b).next ≠ blocklist c z := h.ne_sent_of_free hc hnx
      have hxn : x ≠ (s.hdr b).next := fun e => hx2 ⟨hnx, e⟩
      have han := hadjn hns
      have hsn := h.size_ge _ hnN hns
      have hhin := h.hi _ hnN hns
      have hnnp : (s.hdr (s.hdr b).next).next ≠ (s.hdr b).prev := by
        intro e
        have := h.adj_next _ hnN hns (by rw [e]; exact hps)
        omega
      have hnnn : (s.hdr (s.hdr b).next).next ≠ (s.hdr b).next := by
        intro e
        have := h.adj_next _ hnN hns (by rw [e]; exact hns)
        omega
      have hnnb : (s.hdr (s.hdr b).next).next ≠ b := by
        intro e
        have := h.adj_next _ hnN hns (by rw [e]; exact hbs)
        omega
      simp only [hnx, if_true]
      rw [absorb_hdr _ z _ _ x (fun e => hnp2 e.symm) (by rw [hn2]; exact hnnp), hn2, hp2]
      simp only []
      by_cases e1 : x = (s.hdr (s.hdr b).next).next
      · rw [if_pos e1, if_pos e1, hah', if_neg hnnn, if_neg hnnp, e1]
      · rw [if_neg e1, if_neg e1]
        by_cases e2 : x = (s.hdr b).prev
        · rw [if_pos e2, if_pos e2, e2, hmo _ hpb, hw1,
            wrapInt_eq _ (by omega) (by omega)]
        · rw [if_neg e2, if_neg e2, hah', if_neg hxn, if_neg e2]
    · simp only [hnx, if_false, add_zero]
      by_cases e1 : x = (s.hdr b).next
      · rw [if_pos e1, e1, hn2, hmo _ hnb]
      · rw [if_neg e1]
        by_cases e2 : x = (s.hdr b).prev
        · rw [if_pos e2, e2, hp2, hmo _ hpb, hw1]
        · rw [if_neg e2, hah', if_neg e1, if_neg e2]
  · simp only [hp, if_false, mergeNext_eq, hmbn, hmo _ hnb, zero_add]
    by_cases hnx : (s.hdr (s.hdr b).next).tag = c.PU_FREE
    · have hns : (s.hdr b).next ≠ blocklist c z := h.ne_sent_of_free hc hnx
      have hxn : x ≠ (s.hdr b).next := fun e => hx2 ⟨hnx, e⟩
      have han := hadjn hns
      have hsn := h.size_ge _ hnN hns
      have hhin := h.hi _ hnN hns
      have hlob := h.lo b hb hbs
      have hnnn : (s.hdr (s.hdr b).next).next ≠ (s.hdr b).next := by
        intro e
        have := h.adj_next _ hnN hns (by rw [e]; exact hns)
        omega
      have hnnb : (s.hdr (s.hdr b).next).next ≠ b := by
        intro e
        have := h.adj_next _ hnN hns (by rw [e]; exact hbs)
        omega
      simp only [hnx, if_true]
      rw [absorb_hdr _ z _ _ x (fun e => hnb e.symm) (by rw [hmo _ hnb]; exact hnnb),
        hmo _ hnb, hmbs]
      by_cases e1 : x = (s.hdr (s.hdr b).next).next
      · rw [if_pos e1, if_pos e1, e1]
      · rw [if_neg e1, if_neg e1]
        by_cases e2 : x = b
        · rw [if_pos e2, if_pos e2, e2, wrapInt_eq _ (by omega) (by omega)]
        · rw [if_neg e2, if_neg e2]
    · simp only [hnx, if_false, add_zero]
      by_cases e1 : x = (s.hdr b).next
      · rw [if_pos e1, e1, hmo _ hnb]
        have := hpn
        cases hh : s.hdr (s.hdr b).next
        rw [hh] at this
        simp only at this
        rw [this]
      · rw [if_neg e1]
        by_cases e2 : x = b
        · rw [if_pos e2, e2, hmb]
        · rw [if_neg e2]

theorem freeBlock_zsize (c : Platform) (s : State) (z b : Int) :
    (freeBlock c s z b).zsize = s.zsize := by
  unfold freeBlock
  simp only [mergeNext_eq, mergePrev_eq]
  split_ifs <;> simp only [absorb_zsize, markFree_zsize]

theorem freeBlock_mainzone (c : Platform) (s : State) (z b : Int) :
    (freeBlock c s z b).mainzone = s.mainzone := by
  unfold freeBlock
  simp only [mergeNext_eq, mergePrev_eq]
  split_ifs <;> simp only [absorb_mainzone, markFree_mainzone]

theorem freeBlock_secondaryzone (c : Platform) (s : State) (z b : Int) :
    (freeBlock c s z b).secondaryzone = s.secondaryzone := by
  unfold freeBlock
  simp only [mergeNext_eq, mergePrev_eq]
  split_ifs <;> simp only [absorb_secondaryzone, markFree_secondaryzone]

theorem freeBlock_zrover_other (c : Platform) (s : State) (z b x : Int) (hx : x ≠ z) :
    (freeBlock c s z b).zrover x = s.zrover x := by
  unfold freeBlock
  simp only [mergeNext_eq, mergePrev_eq]
  split_ifs <;> simp only [absorb_zrover, markFree_zrover, if_neg hx]

/-- Outside the list `Z_Free` changes no header. -/
theorem freeBlock_hdr_frame (c : Platform) (hc : c.Valid) (s : State) (z : Int) (N : List Int)
    (b x : Int) (h : WF c s z N) (hb : b ∈ N) (hbs : b ≠ blocklist c z) (hx : x ∉ N) :
    (freeBlock c s z b).hdr x = s.hdr x := by
  obtain ⟨hpN, hnN, hpb, hnb, hnp, hpn, hadjp, hadjn, hnp'⟩ := h.around hc hb hbs
  have hxb : x ≠ b := fun e => hx (e ▸ hb)
  have hxp : x ≠ (s.hdr b).prev := fun e => hx (e ▸ hpN)
  have hxn : x ≠ (s.hdr b).next := fun e => hx (e ▸ hnN)
  have hxnn : x ≠ (s.hdr (s.hdr b).next).next := fun e => hx (e ▸ h.next_mem _ hnN)
  rw [freeBlock_hdr c hc s z N b x h hb hbs (fun hh => hxb hh.2) (fun hh => hxn hh.2)]
  unfold freedHdr mergedNext mergedStart clearedHdr
  have e1 : x ≠ (if (s.hdr (s.hdr b).next).tag = c.PU_FREE then (s.hdr (s.hdr b).next).next
      else (s.hdr b).next) := by
    split_ifs
    · exact hxnn
    · exact hxn
  have e2 : x ≠ (if (s.hdr (s.hdr b).prev).tag = c.PU_FREE then (s.hdr b).prev else b) := by
    split_ifs
    · exact hxp
    · exact hxb
  rw [if_neg e1, if_neg e2, if_neg hxb]

/-! ## Initialisation -/

/-- The zone has room for its header and one block header. -/
theorem WFx.zsize_lo {c : Platform} {s : State} {z : Int} {N ex : List Int}
    (h : WFx c s z N ex) (hc : c.Valid) : c.sizeof_memzone + c.sizeof_memblock ≤ s.zsize z := by
  obtain ⟨hs1, hs2, hs3, hs4⟩ := Platform.Valid.sizes c hc
  have hf : z + c.sizeof_memzone ∈ N := h.first ▸ h.next_mem _ h.sent_mem
  have hfs : z + c.sizeof_memzone ≠ blocklist c z := by unfold blocklist; omega
  have := h.hi _ hf hfs
  have := h.size_ge _ hf hfs
  omega

/-- Every node of the list lies in the span of its zone. -/
theorem WFx.mem_span {c : Platform} {s : State} {z : Int} {N ex : List Int}
    (h : WFx c s z N ex) (hc : c.Valid) {x : Int} (hx : x ∈ N) : z ≤ x ∧ x < z + s.zsize z := by
  obtain ⟨hs1, hs2, hs3, hs4⟩ := Platform.Valid.sizes c hc
  have hz := h.zsize_lo hc
  by_cases hxs : x = blocklist c z
  · rw [hxs]; unfold blocklist; omega
  · have := h.lo x hx hxs
    have := h.hi x hx hxs
    have := h.size_ge x hx hxs
    omega

theorem TwoZones.symm {c : Platform} {s : State} {z o : Int} {N M : List Int}
    (h : TwoZones c s z N o M) : TwoZones c s o M z N :=
  ⟨h.wfo, h.wf, h.apart.symm, h.which.symm.imp (fun hh => ⟨hh.2, hh.1⟩) (fun hh => ⟨hh.2, hh.1⟩)⟩

theorem TwoZones.not_mem_other {c : Platform} {s : State} {z o : Int} {N M : List Int}
    (h : TwoZones c s z N o M) (hc : c.Valid) {x : Int} (hx : x ∈ M) : x ∉ N := by
  intro hx'
  have h1 := h.wf.mem_span hc hx'
  have h2 := h.wfo.mem_span hc hx
  have := h.apart
  omega

theorem TwoZones.ne {c : Platform} {s : State} {z o : Int} {N M : List Int}
    (h : TwoZones c s z N o M) (hc : c.Valid) : o ≠ z := by
  obtain ⟨hs1, hs2, hs3, hs4⟩ := Platform.Valid.sizes c hc
  have h1 := h.wf.zsize_lo hc
  have h2 := h.wfo.zsize_lo hc
  have := h.apart
  omega

/-- `Z_Free` of a block of one pool keeps both pools consistent. -/
theorem TwoZones.freeBlock {c : Platform} {s : State} {z o : Int} {N M : List Int}
    (h : TwoZones c s z N o M) (hc : c.Valid) {b : Int} (hb : b ∈ N)
    (hbs : b ≠ blocklist c z) :
    TwoZones c (freeBlock c s z b) z (freedList c s b N) o M := by
  refine ⟨freeBlock_wf c hc s z N b h.wf hb hbs, ?_, ?_, ?_⟩
  · refine h.wfo.frame _ (by rw [freeBlock_zsize])
      (freeBlock_zrover_other c s z b o (h.ne hc)) ?_
    intro x hx
    exact freeBlock_hdr_frame c hc s z N b x h.wf hb hbs (h.not_mem_other hc hx)
  · rw [freeBlock_zsize]; exact h.apart
  · rw [freeBlock_mainzone, freeBlock_secondaryzone]; exact h.which

/-! ## Placing a request in a free block -/

theorem installBlock_eq (c : Platform) (s : State) (z base tag user : Int) :
    installBlock c s z base tag user =
      if user = 0 ∧ tag ≥ c.PU_PURGELEVEL then .fatal .malloc_no_owner
      else .ok (installed c s z base tag user, base + c.sizeof_memblock) := by
  unfold installBlock installed
  by_cases hu : user = 0
  · by_cases ht : tag ≥ c.PU_PURGELEVEL
    · simp only [hu, ht, ne_eq, not_true_eq_false, if_false, if_true, and_self]
    · simp only [hu, ht, ne_eq, not_true_eq_false, if_false, and_false]
  · simp only [hu, ne_eq, not_false_eq_true, if_true, false_and, if_false]

theorem installed_hdr (c : Platform) (s : State) (z base tag user x : Int) :
    (installed c s z base tag user).hdr x =
      if x = base then { s.hdr base with user := user, tag := tag, id := ZONEID }
      else s.hdr x := by
  unfold installed
  by_cases hu : user = 0 <;> by_cases hx : x = base <;>
    simp only [hu, hx, ne_eq, not_true_eq_false, not_false_eq_true, if_false, if_true,
      setRover_hdr, setHdr_hdr, setSlot_hdr]

/-- Clearing the low `k` bits of a 32 bit number rounds it down to a multiple of `2 ^ k`. -/
theorem land_mask (k : Nat) (hk : k ≤ 32) (x : Nat) (hx : x < 2 ^ 32) :
    Nat.land x ((2 ^ (32 - k) - 1) <<< k) = x / 2 ^ k * 2 ^ k := by
  have e : x / 2 ^ k * 2 ^ k = (x >>> k) <<< k := by
    rw [Nat.shiftLeft_eq, Nat.shiftRight_eq_div_pow]
  rw [e]
  apply Nat.eq_of_testBit_eq
  intro i
  show (x &&& ((2 ^ (32 - k) - 1) <<< k)).testBit i = _
  rw [Nat.testBit_and, Nat.testBit_shiftLeft, Nat.testBit_shiftLeft, Nat.testBit_two_pow_sub_one,
    Nat.testBit_shiftRight]
  by_cases hi : k ≤ i
  · have e2 : k + (i - k) = i := by omega
    rw [e2]
    by_cases h32 : i < 32
    · have : i - k < 32 - k := by omega
      simp [hi, this]
    · have hlt : x < 2 ^ i := lt_of_lt_of_le hx (Nat.pow_le_pow_right (by decide) (by omega))
      rw [Nat.testBit_lt_two_pow hlt]
      simp
  · simp [hi]

theorem land_mask4 (x : Nat) (hx : x < 4294967296) : Nat.land x 4294967292 = x / 4 * 4 :=
  land_mask 2 (by decide) x hx

theorem land_mask8 (x : Nat) (hx : x < 4294967296) : Nat.land x 4294967288 = x / 8 * 8 :=
  land_mask 3 (by decide) x hx

/-- The aligned size is the request rounded up to a multiple of `MEM_ALIGN`, as an `int`. -/
theorem alignSize_eq (c : Platform) (hc : c.Valid) (n : Int) (h0 : 0 ≤ n)
    (h1 : n < 2147483648) :
    alignSize c n = wrapInt ((n + c.MEM_ALIGN - 1) / c.MEM_ALIGN * c.MEM_ALIGN) := by
  unfold alignSize
  congr 1
  rcases hc.1 with hA | hA
  · rw [hA]
    have e1 : ((n + 4 - 1) % 4294967296).toNat = (n + 3).toNat := by
      congr 1; omega
    have e2 : ((4294967295 - (4 - 1) : Int) % 4294967296).toNat = 4294967292 := by decide
    rw [e1, e2, land_mask4 _ (by omega)]
    have e3 : ((n + 3).toNat : Int) = n + 3 := Int.toNat_of_nonneg (by omega)
    rw [Int.ofNat_eq_coe]
    push_cast
    rw [e3]
    congr 2
    omega
  · rw [hA]
    have e1 : ((n + 8 - 1) % 4294967296).toNat = (n + 7).toNat := by
      congr 1; omega
    have e2 : ((4294967295 - (8 - 1) : Int) % 4294967296).toNat = 4294967288 := by decide
    rw [e1, e2, land_mask8 _ (by omega)]
    have e3 : ((n + 7).toNat : Int) = n + 7 := Int.toNat_of_nonneg (by omega)
    rw [Int.ofNat_eq_coe]
    push_cast
    rw [e3]
    congr 2
    omega

theorem ilp32_valid : ilp32.Valid := by
  unfold Platform.Valid
  decide

theorem Z_Malloc_Zone_eq (c : Platform) (fuel : Nat) (s : State) (zone size tag user : Int) :
    Z_Malloc_Zone c fuel s zone size tag user =
      match scan c size (scanStart c s zone) fuel s (scanBase c s zone) (scanBase c s zone) with
      | .ok (s1, none) => .ok (s1, 0)
      | .ok (s1, some base1) => installBlock c (splitBlock c s1 base1 size) zone base1 tag user
      | .fatal e => .fatal e
      | .outOfFuel => .outOfFuel := rfl

theorem scan_succ (c : Platform) (size start : Int) (fuel : Nat) (s : State) (base rover : Int) :
    scan c size start (fuel + 1) s base rover =
      if rover = start then .ok (s, none)
      else
        match scanStep c s base rover with
        | .ok (s1, base1, rover1) =>
          if (s1.hdr base1).tag ≠ c.PU_FREE ∨ (s1.hdr base1).size < size then
            scan c size start fuel s1 base1 rover1
          else .ok (s1, some base1)
        | .fatal e => .fatal e
        | .outOfFuel => .outOfFuel := rfl

/-- C12. `Z_ChangeTag2 (ptr, tag)` ends in a fatal error if and only if the
marker of the header before `ptr` is not `ZONEID`, or `tag >= PU_PURGELEVEL` and
the `user` field of that header is `NULL`.  Otherwise it returns, and in the
state it leaves the header before `ptr` differs in its tag only, which is `tag`,
while every other header, the rovers, the zone pointers and sizes and the owner
slots are what they were. -/
theorem Z_ChangeTag2_exact (c : Platform) (s : State) (ptr tag : Int) :
    ((∃ e, Z_ChangeTag2 c s ptr tag = .fatal e) ↔
      ((s.hdr (ptr - c.sizeof_memblock)).id ≠ ZONEID ∨
        (tag ≥ c.PU_PURGELEVEL ∧ (s.hdr (ptr - c.sizeof_memblock)).user = 0))) ∧
    (¬ ((s.hdr (ptr - c.sizeof_memblock)).id ≠ ZONEID ∨
        (tag ≥ c.PU_PURGELEVEL ∧ (s.hdr (ptr - c.sizeof_memblock)).user = 0)) →
      ∃ s', Z_ChangeTag2 c s ptr tag = .ok s' ∧
        s'.hdr (ptr - c.sizeof_memblock) = { s.hdr (ptr - c.sizeof_memblock) with tag := tag } ∧
        (∀ x, x ≠ ptr - c.sizeof_memblock → s'.hdr x = s.hdr x) ∧
        s'.zrover = s.zrover ∧ s'.zsize = s.zsize ∧ s'.slot = s.slot ∧
        s'.mainzone = s.mainzone ∧ s'.secondaryzone = s.secondaryzone) := by
  unfold Z_ChangeTag2
  simp only []
  by_cases h1 : (s.hdr (ptr - c.sizeof_memblock)).id ≠ ZONEID
  · rw [if_pos h1]
    exact ⟨⟨fun _ => Or.inl h1, fun _ => ⟨_, rfl⟩⟩, fun hh => absurd (Or.inl h1) hh⟩
  · rw [if_neg h1]
    by_cases h2 : tag ≥ c.PU_PURGELEVEL ∧ (s.hdr (ptr - c.sizeof_memblock)).user = 0
    · rw [if_pos h2]
      exact ⟨⟨fun _ => Or.inr h2, fun _ => ⟨_, rfl⟩⟩, fun hh => absurd (Or.inr h2) hh⟩
    · rw [if_neg h2]
      refine ⟨⟨fun hh => ?_, fun hh => ?_⟩, fun _ => ⟨_, rfl, ?_, ?_, rfl, rfl, rfl, rfl, rfl⟩⟩
      · obtain ⟨e, he⟩ := hh
        cases he
      · rcases hh with hh | hh
        · exact absurd hh h1
        · exact absurd hh h2
      · rw [setHdr_hdr, if_pos rfl]
      · intro x hx
        rw [setHdr_hdr, if_neg hx]

/-! ## C15: the scenario of 1024 bytes -/

/-- C15. On the 32 bit target, in the state `fresh` the main pool holds the one
free block of 1024 bytes (at 1032, between the sentinel and the sentinel).
`Z_Malloc (100, PU_STATIC, NULL)` returns `A = 1056`; then `Z_Malloc (960,
PU_CACHE, 7777)` returns `NULL` and the state is the one before the call; then
after `Z_Free (A)`, `Z_Malloc (960, PU_CACHE, 7777)` returns 1056, and the owner
slot 7777 holds 1056.  The same holds of `Z_Malloc_Zone` on the main zone with
the sizes 124 and 984 that `Z_Malloc` passes, and on the 64 bit target `lp64`
(there `A = 1096`). -/
theorem scenario_of_1024_bytes :
    ((fresh.hdr 1004).next = 1032 ∧ (fresh.hdr 1032).next = 1004 ∧
      (fresh.hdr 1032).tag = 4 ∧ (fresh.hdr 1032).size = 1024) ∧
    (∃ s1 s2 s3,
      Z_Malloc ilp32 2000 fresh 100 1 0 = .ok (s1, 1056) ∧
      Z_Malloc ilp32 2000 s1 960 8 7777 = .ok (s1, 0) ∧
      Z_Free ilp32 s1 1056 = .ok s2 ∧
      Z_Malloc ilp32 2000 s2 960 8 7777 = .ok (s3, 1056) ∧ s3.slot 7777 = 1056) ∧
    (∃ s1 s2 s3,
      Z_Malloc_Zone ilp32 2000 fresh 1000 124 1 0 = .ok (s1, 1056) ∧
      Z_Malloc_Zone ilp32 2000 s1 1000 984 8 7777 = .ok (s1, 0) ∧
      Z_Free ilp32 s1 1056 = .ok s2 ∧
      Z_Malloc_Zone ilp32 2000 s2 1000 984 8 7777 = .ok (s3, 1056) ∧ s3.slot 7777 = 1056) ∧
    ((fresh64.hdr 1008).next = 1056 ∧ (fresh64.hdr 1056).next = 1008 ∧
      (fresh64.hdr 1056).tag = 4 ∧ (fresh64.hdr 1056).size = 1024) ∧
    (∃ s1 s2 s3,
      Z_Malloc lp64 2000 fresh64 100 1 0 = .ok (s1, 1096) ∧
      Z_Malloc lp64 2000 s1 960 8 7777 = .ok (s1, 0) ∧
      Z_Free lp64 s1 1096 = .ok s2 ∧
      Z_Malloc lp64 2000 s2 960 8 7777 = .ok (s3, 1096) ∧ s3.slot 7777 = 1096) :=
  ⟨⟨by decide, by decide, by decide, by decide⟩,
    ⟨_, _, _, rfl, rfl, rfl, rfl, by decide⟩,
    ⟨_, _, _, rfl, rfl, rfl, rfl, by decide⟩,
    ⟨by decide, by decide, by decide, by decide⟩,
    ⟨_, _, _, rfl, rfl, rfl, rfl, by decide⟩⟩

/-! ## C13: the size that is asked for and the size that is given -/

/-- The block the scan ends with is free and large enough. -/
theorem scan_some (c : Platform) (size start : Int) : ∀ (fuel : Nat) (s : State)
    (base rover : Int) (s1 : State) (b : Int),
    scan c size start fuel s base rover = .ok (s1, some b) →
    (s1.hdr b).tag = c.PU_FREE ∧ size ≤ (s1.hdr b).size := by
  intro fuel
  induction fuel with
  | zero =>
    intro s base rover s1 b h
    cases h
  | succ n ih =>
    intro s base rover s1 b h
    rw [scan_succ] at h
    by_cases hr : rover = start
    · rw [if_pos hr] at h
      cases h
    · rw [if_neg hr] at h
      cases hs : scanStep c s base rover with
      | ok r =>
        obtain ⟨s2, b2, r2⟩ := r
        rw [hs] at h
        simp only [] at h
        by_cases hcnd : (s2.hdr b2).tag ≠ c.PU_FREE ∨ (s2.hdr b2).size < size
        · rw [if_pos hcnd] at h
          exact ih s2 b2 r2 s1 b h
        · rw [if_neg hcnd] at h
          cases h
          simp only [not_or, ne_eq, not_not, not_lt] at hcnd
          exact hcnd
      | fatal e => rw [hs] at h; cases h
      | outOfFuel => rw [hs] at h; cases h

/-- The `size` field of the block a request is placed in. -/
theorem alloc_size (c : Platform) (s : State) (z b size tag user : Int) :
    ((installed c (splitBlock c s b size) z b tag user).hdr b).size =
      if wrapInt ((s.hdr b).size - size) > MINFRAGMENT then size else (s.hdr b).size := by
  rw [installed_hdr, if_pos rfl]
  show ((splitBlock c s b size).hdr b).size = _
  unfold splitBlock
  simp only []
  split_ifs
  · rw [setHdr_hdr, if_pos rfl]
  · rfl

/-- When `Z_Malloc_Zone` returns a pointer, the block before it has at least the
size that was asked for. -/
theorem Z_Malloc_Zone_size (c : Platform) (fuel : Nat) (s : State) (zone size tag user : Int)
    (s' : State) (p : Int) (h : Z_Malloc_Zone c fuel s zone size tag user = .ok (s', p))
    (hp : p ≠ 0) : size ≤ (s'.hdr (p - c.sizeof_memblock)).size := by
  rw [Z_Malloc_Zone_eq] at h
  cases hs : scan c size (scanStart c s zone) fuel s (scanBase c s zone) (scanBase c s zone) with
  | ok r =>
    obtain ⟨s1, r1⟩ := r
    rw [hs] at h
    cases r1 with
    | none =>
      simp only [] at h
      cases h
      exact absurd rfl hp
    | some b =>
      simp only [] at h
      rw [installBlock_eq] at h
      split_ifs at h
      cases h
      have e : b + c.sizeof_memblock - c.sizeof_memblock = b := by omega
      rw [e, alloc_size]
      have := (scan_some c size _ fuel s _ _ s1 b hs).2
      split_ifs
      · exact le_refl _
      · exact this
  | fatal e => rw [hs] at h; cases h
  | outOfFuel => rw [hs] at h; cases h

/-- C13. Let `n >= 0` with `n + MEM_ALIGN + sizeof(memblock_t)` an `int`.  The
size `(n + MEM_ALIGN - 1) & ~(MEM_ALIGN - 1)` that `Z_Malloc` computes is the
least multiple of `MEM_ALIGN` that is at least `n`: it is a multiple, it is at
least `n`, and it is less than `n + MEM_ALIGN`.  And whenever `Z_Malloc (n, tag,
user)` returns a pointer `p` other than `NULL`, in any state, the size of the
block before `p` less the header is at least `n`. -/
theorem request_aligned_and_served (c : Platform) (hc : c.Valid) (n : Int) (h0 : 0 ≤ n)
    (h1 : n + c.MEM_ALIGN + c.sizeof_memblock < 2147483648) :
    (alignSize c n % c.MEM_ALIGN = 0 ∧ n ≤ alignSize c n ∧ alignSize c n < n + c.MEM_ALIGN) ∧
    ∀ (fuel : Nat) (s s' : State) (tag user p : Int),
      Z_Malloc c fuel s n tag user = .ok (s', p) → p ≠ 0 →
      n ≤ (s'.hdr (p - c.sizeof_memblock)).size - c.sizeof_memblock := by
  obtain ⟨hv1, hv2, hv3, hv4⟩ := Platform.Valid.sizes c hc
  have hA : c.MEM_ALIGN = 4 ∨ c.MEM_ALIGN = 8 := hc.1
  have ha := alignSize_eq c hc n h0 (by rcases hA with e | e <;> omega)
  have hw : wrapInt ((n + c.MEM_ALIGN - 1) / c.MEM_ALIGN * c.MEM_ALIGN)
      = (n + c.MEM_ALIGN - 1) / c.MEM_ALIGN * c.MEM_ALIGN := by
    apply wrapInt_eq
    · rcases hA with e | e <;> rw [e] <;> omega
    · rcases hA with e | e <;> rw [e] <;> omega
  rw [hw] at ha
  have hal : alignSize c n % c.MEM_ALIGN = 0 ∧ n ≤ alignSize c n ∧
      alignSize c n < n + c.MEM_ALIGN := by
    rw [ha]
    rcases hA with e | e <;> rw [e] <;> omega
  refine ⟨hal, ?_⟩
  intro fuel s s' tag user p h hp
  have hr : requestSize c n = alignSize c n + c.sizeof_memblock := by
    unfold requestSize
    exact wrapInt_eq _ (by omega) (by omega)
  have key : requestSize c n ≤ (s'.hdr (p - c.sizeof_memblock)).size := by
    unfold Z_Malloc at h
    cases hm : Z_Malloc_Zone c fuel s s.mainzone (requestSize c n) tag user with
    | ok r =>
      obtain ⟨s1, p1⟩ := r
      rw [hm] at h
      simp only [] at h
      by_cases hp1 : p1 = 0
      · rw [if_pos hp1] at h
        cases hm2 : Z_Malloc_Zone c fuel s1 s1.secondaryzone (requestSize c n) tag user with
        | ok r2 =>
          obtain ⟨s2, p2⟩ := r2
          rw [hm2] at h
          simp only [] at h
          by_cases hp2 : p2 = 0
          · rw [if_pos hp2] at h
            split_ifs at h
            cases h
            exact absurd rfl hp
          · rw [if_neg hp2] at h
            cases h
            exact Z_Malloc_Zone_size c fuel s1 _ _ tag user s' p hm2 hp
        | fatal e => rw [hm2] at h; cases h
        | outOfFuel => rw [hm2] at h; cases h
      · rw [if_neg hp1] at h
        cases h
        exact Z_Malloc_Zone_size c fuel s _ _ tag user s' p hm hp
    | fatal e => rw [hm] at h; cases h
    | outOfFuel => rw [hm] at h; cases h
  omega

/-- C13 at a concrete input: on the 32 bit target a request of 100 bytes is
aligned to 100, and the block `Z_Malloc` returns in the state `fresh` has 124
bytes with its header of 24. -/
theorem request_aligned_and_served_witness :
    (alignSize ilp32 100 % 4 = 0 ∧ (100 : Int) ≤ alignSize ilp32 100 ∧
      alignSize ilp32 100 < 100 + 4) ∧
    (100 : Int) ≤ ((stateOf (Z_Malloc ilp32 2000 fresh 100 1 0) fresh).hdr (1056 - 24)).size
      - 24 :=
  ⟨(request_aligned_and_served ilp32 ilp32_valid 100 (by decide) (by decide)).1,
    (request_aligned_and_served ilp32 ilp32_valid 100 (by decide) (by decide)).2 2000 fresh
      (stateOf (Z_Malloc ilp32 2000 fresh 100 1 0) fresh) 1 0 1056 rfl (by decide)⟩

/-! ## The nodes of a list -/

end Zone
